import Mathlib

/- Shallow embedding of the 2-D geometry core of OpenCSP:
   opencsp/common/lib/geometry/Vxy.py and opencsp/common/lib/geometry/LineXY.py.
   Real numbers model Python floats; the 2xN numpy data array of a Vxy
   container is modelled as a list of coordinate pairs (one pair per column).
   Raised exceptions are modelled with Option/Except; the unbounded inner
   while loop of the RANSAC fit is modelled with explicit fuel; the numpy
   RandomState draws and the scipy minimizer are abstracted as explicit
   function parameters. -/

open scoped Classical

noncomputable section

/-- A single 2-D point (one column of a Vxy data array). -/
abbrev Pt := ℝ × ℝ

/-- Vxy container: the 2xN data array, stored column-wise. -/
abbrev Vxy := List Pt

namespace Vxy

/-- Vxy.magnitude: np.sqrt(np.sum(data ** 2, 0)), columnwise. -/
def magnitude (v : Vxy) : List ℝ := v.map (fun p => Real.sqrt (p.1 ^ 2 + p.2 ^ 2))

/-- Vxy._magnitude_with_zero_check: returns the magnitudes, or fails with a
    ValueError when np.any(mag == 0). -/
def magnitude_with_zero_check (v : Vxy) : Option (List ℝ) :=
  if ∃ m ∈ magnitude v, m = 0 then none else some (magnitude v)

/-- Vxy.normalize_in_place: the statement self._data /= self._magnitude_with_zero_check().
    The value carried by either branch is the post-state of the container: on
    the error branch the exception fires while the right-hand side is being
    evaluated, before any element of the data array is written, so the
    post-state is the unchanged input. -/
def normalize_in_place (v : Vxy) : Except Vxy Vxy :=
  match magnitude_with_zero_check v with
  | none => .error v
  | some mags => .ok (List.zipWith (fun p m => (p.1 / m, p.2 / m)) v mags)

/-- Vxy.normalize: copies the data, normalizes the copy in place, returns the
    copy. First component: the returned container (or the propagated error);
    second component: the post-state of the original container, which is
    never written because only the copy is mutated. -/
def normalize (v : Vxy) : Except Unit Vxy × Vxy :=
  match normalize_in_place v with
  | .error _ => (.error (), v)
  | .ok w => (.ok w, v)

/-- Vxy.dot: (self._data * V.data).sum(axis=0), with numpy broadcasting of a
    single column against N columns. On shapes numpy cannot broadcast (N and
    M columns, both greater than one, N different from M) numpy raises; that
    case is unreachable from the code modelled here and yields the empty
    list. -/
def dot (u v : Vxy) : List ℝ :=
  if u.length = v.length then
    List.zipWith (fun p q => p.1 * q.1 + p.2 * q.2) u v
  else if v.length = 1 then
    u.map (fun p => p.1 * (v.headD (0, 0)).1 + p.2 * (v.headD (0, 0)).2)
  else if u.length = 1 then
    v.map (fun q => (u.headD (0, 0)).1 * q.1 + (u.headD (0, 0)).2 * q.2)
  else []

/-- Vxy.merge: an empty input list gives the empty container cls([[], []]);
    otherwise np.concatenate of the data arrays along axis 1. -/
def merge (vList : List Vxy) : Vxy :=
  if vList.length = 0 then ([] : Vxy) else vList.flatten

end Vxy

/-- A 2-D homogeneous line Ax + By + C = 0: the three stored coefficients. -/
structure LineXY where
  A : ℝ
  B : ℝ
  C : ℝ

namespace LineXY

/-- LineXY.__init__: normalizes the AB vector by its euclidean norm and
    stores A/mag, B/mag, C/mag. The source performs no zero check: when
    A = B = 0 the division is by zero (numpy yields NaN coefficients with a
    RuntimeWarning and no exception; the real-number model yields 0). -/
def init (A B C : ℝ) : LineXY :=
  let mag := Real.sqrt (A ^ 2 + B ^ 2)
  ⟨A / mag, B / mag, C / mag⟩

/-- The quantity A^2 + B^2 of the stored coefficients (the normalization
    invariant states that it equals 1). -/
def normSq (L : LineXY) : ℝ := L.A ^ 2 + L.B ^ 2

/-- LineXY.n_vec: the stored normal vector, as a length-1 container. -/
def n_vec (L : LineXY) : Vxy := [(L.A, L.B)]

/-- LineXY.slope: np.inf (modelled as the top extended real) when
    abs(B) < 1e-10, otherwise -A/B. -/
def slope (L : LineXY) : EReal :=
  if |L.B| < 1e-10 then ⊤ else (((-L.A) / L.B : ℝ) : EReal)

/-- LineXY.dist_from_signed: Pxy.dot(self.n_vec) + self.C, where numpy
    broadcasts the scalar C over the length-n dot product. -/
def dist_from_signed (L : LineXY) (Pxy : Vxy) : List ℝ :=
  (Vxy.dot Pxy L.n_vec).map (fun x => x + L.C)

/-- LineXY.dist_from: np.abs(self.dist_from_signed(Pxy)). -/
def dist_from (L : LineXY) (Pxy : Vxy) : List ℝ :=
  (L.dist_from_signed Pxy).map (fun x => |x|)

/-- The error raised by LineXY.from_two_points when an input container does
    not have length 1. -/
inductive LineErr where
  | inputLengthNotOne

/-- LineXY.from_two_points: checks both inputs have length 1, rotates the
    difference vector clockwise by 90 degrees (R = [[0,1],[-1,0]], so
    delta = (dx, dy) becomes (A, B) = (dy, -dx)), sets C = -dot(p1, (A,B))
    and hands (A, B, C) to the normalizing constructor. There is no
    coincidence check: coincident points produce the zero AB vector. -/
def from_two_points (Pxy1 Pxy2 : Vxy) : Except LineErr LineXY :=
  if Pxy1.length ≠ 1 ∨ Pxy2.length ≠ 1 then .error .inputLengthNotOne
  else
    let p1 := Pxy1.headD (0, 0)
    let p2 := Pxy2.headD (0, 0)
    let A := p2.2 - p1.2
    let B := -(p2.1 - p1.1)
    .ok (init A B (-(p1.1 * A + p1.2 * B)))

/-- Two-sided bound abs(a) < e on an extended real, phrased so that an
    infinite difference (one vertical line) and an undefined difference
    (modelled as the bottom element, the NaN of inf - inf) both fail the
    bound, exactly as the float comparison with inf or nan is False. -/
def absLtE (a : EReal) (e : ℝ) : Prop := -(e : EReal) < a ∧ a < (e : EReal)

/-- LineXY.intersect_with: returns None when both A coefficients are within
    1e-10 of zero, or both B coefficients are, or the slopes differ by less
    than 1e-10; otherwise the intersection point from the homogeneous cross
    product np.cross(self.ABC, Lxy.ABC), dehomogenized by its last entry. -/
def intersect_with (L1 L2 : LineXY) : Option Pt :=
  if (|L1.A| < 1e-10 ∧ |L2.A| < 1e-10) ∨ (|L1.B| < 1e-10 ∧ |L2.B| < 1e-10)
      ∨ absLtE (L1.slope - L2.slope) (1e-10) then none
  else
    let v1 := L1.B * L2.C - L1.C * L2.B
    let v2 := L1.C * L2.A - L1.A * L2.C
    let v3 := L1.A * L2.B - L1.B * L2.A
    some (v1 / v3, v2 / v3)

/-- LineXY.flip_in_place: negates the three coefficients (post-state). -/
def flip_in_place (L : LineXY) : LineXY := ⟨-L.A, -L.B, -L.C⟩

/-- LineXY.flip: LineXY(*self.ABC), then flip_in_place on the copy. -/
def flip (L : LineXY) : LineXY := (init L.A L.B L.C).flip_in_place

end LineXY

/-- np.floor(u * n).astype(int) for a uniform draw u from [0, 1). -/
def sampleIdx (n : ℕ) (u : ℝ) : ℕ := (⌊u * (n : ℝ)⌋).toNat

/-- The inner re-sampling while loop of fit_from_points (lines 109-110 of
    LineXY.py): while the points at i1 and i2 have equal coordinates, redraw
    i2 = floor(rand * n). The stream s gives the successive rs.rand() draws;
    the fuel argument (first of the three explicit naturals) bounds the
    number of iterations because the source loop is unbounded. Returns the
    final i2 together with the next unused stream position. -/
def resample (P : Vxy) (n : ℕ) (i1 : ℕ) (s : ℕ → ℝ) :
    ℕ → ℕ → ℕ → Option (ℕ × ℕ)
  | 0, _, _ => none
  | fuel + 1, k, i2 =>
    if P.getD i1 (0, 0) = P.getD i2 (0, 0) then
      resample P n i1 s fuel (k + 1) (sampleIdx n (s k))
    else some (i2, k)

/-- The line that from_two_points builds through two points given as
    singleton containers, which is the only way the RANSAC loop calls it. -/
def lineThrough (p1 p2 : Pt) : LineXY :=
  LineXY.init (p2.2 - p1.2) (-(p2.1 - p1.1))
    (-(p1.1 * (p2.2 - p1.2) + p1.2 * (-(p2.1 - p1.1))))

/-- One executed RANSAC trial: its two sampled indices and inlier count. -/
structure Trial where
  i1 : ℕ
  i2 : ℕ
  cnt : ℕ

/-- The retained best candidate: its line and its saved inlier mask. -/
structure BestFit where
  line : LineXY
  mask : List Bool

/-- mask_neighbor: the boolean array ds < neighbor_dist for a candidate. -/
def neighborMask (P : Vxy) (d : ℝ) (L : LineXY) : List Bool :=
  (L.dist_from P).map (fun x => decide (x < d))

/-- n_active = mask_neighbor.sum(): the inlier count of a candidate line. -/
def inlierCount (P : Vxy) (d : ℝ) (L : LineXY) : ℕ :=
  (neighborMask P d L).count true

/-- thresh = int(0.99 * n): the early-exit threshold of fit_from_points. -/
def exitThresh (n : ℕ) : ℕ := (⌊(0.99 : ℝ) * (n : ℝ)⌋).toNat

/-- Lxy = LineXY.from_two_points(Pxy[i1], Pxy[i2]): the candidate line of
    the trial that sampled indices i1 and i2. -/
def trialLine (P : Vxy) (i1 i2 : ℕ) : LineXY :=
  lineThrough (P.getD i1 (0, 0)) (P.getD i2 (0, 0))

/-- n_active of a trial: the inlier count of its candidate line. -/
def trialCnt (P : Vxy) (d : ℝ) (i1 i2 : ℕ) : ℕ := inlierCount P d (trialLine P i1 i2)

/-- The best_active update of a trial: replaced only on a strict beat. -/
def bestUpd (cnt best : ℕ) : ℕ := if cnt > best then cnt else best

/-- The update of the saved best candidate (A_active, B_active, C_active and
    active_mask): replaced only when n_active strictly beats best_active. -/
def blUpd (P : Vxy) (d : ℝ) (i1 i2 best : ℕ) (bl : Option BestFit) : Option BestFit :=
  if trialCnt P d i1 i2 > best then
    some ⟨trialLine P i1 i2, neighborMask P d (trialLine P i1 i2)⟩
  else bl

/-- The RANSAC trial loop of fit_from_points (lines 104-135 of LineXY.py):
    up to rem further trials (1000 at the top-level call). Each trial draws
    i1 and i2, re-samples i2 until the two points differ, fits the two-point
    line, counts inliers, keeps the candidate when the count strictly beats
    the best count so far, and breaks as soon as the current count exceeds
    int(0.99 * n). Returns the executed trial trace, the final best count
    and the retained candidate; none models divergence of the inner
    re-sampling loop (arises for every value of the fuel F). -/
def runTrials (P : Vxy) (d : ℝ) (s : ℕ → ℝ) (F : ℕ) :
    ℕ → ℕ → ℕ → Option BestFit → Option (List Trial × ℕ × Option BestFit)
  | 0, _, best, bl => some ([], best, bl)
  | rem + 1, k, best, bl =>
    match resample P P.length (sampleIdx P.length (s k)) s F (k + 2)
        (sampleIdx P.length (s (k + 1))) with
    | none => none
    | some (i2, k2) =>
      if trialCnt P d (sampleIdx P.length (s k)) i2 > exitThresh P.length then
        some ([⟨sampleIdx P.length (s k), i2, trialCnt P d (sampleIdx P.length (s k)) i2⟩],
          bestUpd (trialCnt P d (sampleIdx P.length (s k)) i2) best,
          blUpd P d (sampleIdx P.length (s k)) i2 best bl)
      else
        match runTrials P d s F rem k2
            (bestUpd (trialCnt P d (sampleIdx P.length (s k)) i2) best)
            (blUpd P d (sampleIdx P.length (s k)) i2 best bl) with
        | none => none
        | some (tr, b3, bl3) =>
          some (⟨sampleIdx P.length (s k), i2, trialCnt P d (sampleIdx P.length (s k)) i2⟩ :: tr,
            b3, bl3)

/-- np.arctan2(y, x). -/
def arctan2 (y x : ℝ) : ℝ :=
  if 0 < x then Real.arctan (y / x)
  else if x < 0 then
    (if 0 ≤ y then Real.arctan (y / x) + Real.pi else Real.arctan (y / x) - Real.pi)
  else (if 0 < y then Real.pi / 2 else if y < 0 then -(Real.pi / 2) else 0)

/-- Boolean-mask indexing Pxy[active_mask]. -/
def maskSelect (P : Vxy) (mask : List Bool) : Vxy :=
  (P.zip mask).filterMap (fun pb => if pb.2 then some pb.1 else none)

/-- Outcome of fit_from_points. -/
inductive FitResult where
  | insufficientPoints
  | nameError
  | diverged
  | ok (L : LineXY)

/-- LineXY.fit_from_points. The stream s abstracts the draws of the numpy
    RandomState built from the seed; mini abstracts scipy.optimize.minimize
    applied to the mean-squared-distance error function, mapping the initial
    (theta, C) guess and the active points to the optimizer output (theta, C).
    insufficientPoints models the ValueError raised for 15 or fewer points;
    nameError models the NameError at line 153 when no trial ever strictly
    beat best_active = 0 (A_active never assigned); diverged models
    nontermination of the inner re-sampling loop. The returned line is
    LineXY(sin theta, cos theta, C). -/
def fit_from_points (mini : ℝ × ℝ → Vxy → ℝ × ℝ) (F : ℕ)
    (P : Vxy) (s : ℕ → ℝ) (d : ℝ) : FitResult :=
  if P.length ≤ 15 then .insufficientPoints
  else
    match runTrials P d s F 1000 0 0 none with
    | none => .diverged
    | some (_, _, none) => .nameError
    | some (_, _, some bf) =>
      let out := mini (arctan2 bf.line.A bf.line.B, bf.line.C) (maskSelect P bf.mask)
      .ok (LineXY.init (Real.sin out.1) (Real.cos out.1) out.2)

/-- fit_from_points with the seed explicit: rng models the map from the seed
    to the stream of rs.rand() draws of RandomState(MT19937(SeedSequence(seed))).
    The function depends on nothing but its arguments: the generator is
    re-created locally from the seed and no global state is read. -/
def fit_from_points_seeded (rng : ℕ → ℕ → ℝ) (mini : ℝ × ℝ → Vxy → ℝ × ℝ)
    (F : ℕ) (P : Vxy) (seed : ℕ) (d : ℝ) : FitResult :=
  fit_from_points mini F P (rng seed) d

/-- Fairness of an abstract random stream for a point set P: arbitrarily far
    into the stream there are two draws whose sampled points differ. This is
    the almost-sure behaviour of uniform index sampling whenever P contains
    two distinct points; an eventually degenerate stream cannot realize it. -/
def FairStream (P : Vxy) (s : ℕ → ℝ) : Prop :=
  ∀ k : ℕ, ∃ j j' : ℕ, k ≤ j ∧ k ≤ j' ∧
    P.getD (sampleIdx P.length (s j)) (0, 0) ≠ P.getD (sampleIdx P.length (s j')) (0, 0)

/-- The maximum inlier count over a trial trace. -/
def traceMax (tr : List Trial) : ℕ := tr.foldr (fun t m => max t.cnt m) 0

/-- Sixteen collinear sample points on the x axis: a concrete fit input. -/
def P16 : Vxy :=
  [(0, 0), (1, 0), (2, 0), (3, 0), (4, 0), (5, 0), (6, 0), (7, 0),
   (8, 0), (9, 0), (10, 0), (11, 0), (12, 0), (13, 0), (14, 0), (15, 0)]

/-- A concrete draw stream: 0 at position 0 (index 0), 1/16 afterwards
    (index 1). -/
def s16 : ℕ → ℝ := fun j => if j = 0 then 0 else 1 / 16

end

theorem resample_zero (P : Vxy) (n i1 : ℕ) (s : ℕ → ℝ) (k i2 : ℕ) :
    resample P n i1 s 0 k i2 = none := rfl

theorem resample_succ (P : Vxy) (n i1 : ℕ) (s : ℕ → ℝ) (fuel k i2 : ℕ) :
    resample P n i1 s (fuel + 1) k i2 =
      if P.getD i1 (0, 0) = P.getD i2 (0, 0) then
        resample P n i1 s fuel (k + 1) (sampleIdx n (s k))
      else some (i2, k) := rfl

theorem runTrials_zero (P : Vxy) (d : ℝ) (s : ℕ → ℝ) (F k best : ℕ)
    (bl : Option BestFit) : runTrials P d s F 0 k best bl = some ([], best, bl) := rfl

theorem runTrials_succ (P : Vxy) (d : ℝ) (s : ℕ → ℝ) (F rem k best : ℕ)
    (bl : Option BestFit) :
    runTrials P d s F (rem + 1) k best bl =
      match resample P P.length (sampleIdx P.length (s k)) s F (k + 2)
          (sampleIdx P.length (s (k + 1))) with
      | none => none
      | some (i2, k2) =>
        if trialCnt P d (sampleIdx P.length (s k)) i2 > exitThresh P.length then
          some ([⟨sampleIdx P.length (s k), i2, trialCnt P d (sampleIdx P.length (s k)) i2⟩],
            bestUpd (trialCnt P d (sampleIdx P.length (s k)) i2) best,
            blUpd P d (sampleIdx P.length (s k)) i2 best bl)
        else
          match runTrials P d s F rem k2
              (bestUpd (trialCnt P d (sampleIdx P.length (s k)) i2) best)
              (blUpd P d (sampleIdx P.length (s k)) i2 best bl) with
          | none => none
          | some (tr, b3, bl3) =>
            some (⟨sampleIdx P.length (s k), i2, trialCnt P d (sampleIdx P.length (s k)) i2⟩ :: tr,
              b3, bl3) := rfl

/-- Pointwise characterization of a zero-magnitude column: the euclidean
    magnitude vanishes exactly on the zero vector. -/
theorem sqrt_mag_eq_zero_iff (p : Pt) :
    Real.sqrt (p.1 ^ 2 + p.2 ^ 2) = 0 ↔ p = ((0 : ℝ), (0 : ℝ)) := by
  rw [Real.sqrt_eq_zero']
  constructor
  · intro h
    have h1 : p.1 ^ 2 + p.2 ^ 2 = 0 := le_antisymm h (by positivity)
    have h2 : p.1 = 0 := by nlinarith [sq_nonneg p.1, sq_nonneg p.2]
    have h3 : p.2 = 0 := by nlinarith [sq_nonneg p.1, sq_nonneg p.2]
    rw [Prod.ext_iff]
    exact ⟨h2, h3⟩
  · rintro rfl
    norm_num

/-- C6: Vxy normalization fails (raises the ValueError) exactly when some
    vector in the container has zero magnitude, equivalently some column is
    the zero vector; when it fails, neither the original container returned
    by normalize nor the in-place post-state carries any mutation. -/
theorem c6_normalize_zero_check (v : Vxy) :
    ((Vxy.normalize v).1 = .error () ↔ ∃ p ∈ v, Real.sqrt (p.1 ^ 2 + p.2 ^ 2) = 0)
    ∧ (Vxy.normalize v).2 = v
    ∧ (∀ w, Vxy.normalize_in_place v = .error w → w = v)
    ∧ ((∃ p ∈ v, Real.sqrt (p.1 ^ 2 + p.2 ^ 2) = 0) ↔ ∃ p ∈ v, p = ((0 : ℝ), (0 : ℝ))) := by
  have hiff : (∃ m ∈ Vxy.magnitude v, m = 0) ↔
      ∃ p ∈ v, Real.sqrt (p.1 ^ 2 + p.2 ^ 2) = 0 := by
    simp [Vxy.magnitude]
  have h4 : (∃ p ∈ v, Real.sqrt (p.1 ^ 2 + p.2 ^ 2) = 0) ↔
      ∃ p ∈ v, p = ((0 : ℝ), (0 : ℝ)) := by
    constructor
    · rintro ⟨p, hp, hz⟩
      exact ⟨p, hp, (sqrt_mag_eq_zero_iff p).mp hz⟩
    · rintro ⟨p, hp, hz⟩
      exact ⟨p, hp, (sqrt_mag_eq_zero_iff p).mpr hz⟩
  by_cases h : ∃ m ∈ Vxy.magnitude v, m = 0
  · have e1 : Vxy.magnitude_with_zero_check v = none := by
      simp [Vxy.magnitude_with_zero_check, h]
    have e2 : Vxy.normalize_in_place v = .error v := by
      simp [Vxy.normalize_in_place, e1]
    have e3 : Vxy.normalize v = (.error (), v) := by
      simp [Vxy.normalize, e2]
    refine ⟨?_, by rw [e3], ?_, h4⟩
    · rw [e3]
      exact iff_of_true rfl (hiff.mp h)
    · intro w hw
      rw [e2] at hw
      simpa using hw.symm
  · have e1 : Vxy.magnitude_with_zero_check v = some (Vxy.magnitude v) := by
      simp [Vxy.magnitude_with_zero_check, h]
    have e2 : Vxy.normalize_in_place v =
        .ok (List.zipWith (fun p m => (p.1 / m, p.2 / m)) v (Vxy.magnitude v)) := by
      simp [Vxy.normalize_in_place, e1]
    have e3 : Vxy.normalize v =
        (.ok (List.zipWith (fun p m => (p.1 / m, p.2 / m)) v (Vxy.magnitude v)), v) := by
      simp [Vxy.normalize, e2]
    refine ⟨?_, by rw [e3], ?_, h4⟩
    · rw [e3]
      exact iff_of_false (by simp) (fun hx => h (hiff.mpr hx))
    · intro w hw
      rw [e2] at hw
      exact absurd hw (by simp)

/-- C6 witness: on the container holding the single zero vector, normalize
    fails and the original data is unchanged. -/
theorem c6_normalize_zero_check_witness :
    (Vxy.normalize [((0 : ℝ), (0 : ℝ))]).1 = .error ()
    ∧ (Vxy.normalize [((0 : ℝ), (0 : ℝ))]).2 = [((0 : ℝ), (0 : ℝ))] := by
  refine ⟨(c6_normalize_zero_check [((0 : ℝ), (0 : ℝ))]).1.mpr ?_,
    (c6_normalize_zero_check [((0 : ℝ), (0 : ℝ))]).2.1⟩
  exact ⟨((0 : ℝ), (0 : ℝ)), by norm_num, by norm_num⟩

/-- C7: for every line and every point set, the signed perpendicular
    distance list computed through the broadcast dot product is pointwise
    dot(point, (A, B)) + C, and dist_from is its pointwise absolute value. -/
theorem c7_dist_formulas (L : LineXY) (P : Vxy) :
    L.dist_from_signed P = P.map (fun p => p.1 * L.A + p.2 * L.B + L.C)
    ∧ L.dist_from P = P.map (fun p => |p.1 * L.A + p.2 * L.B + L.C|) := by
  have h : L.dist_from_signed P = P.map (fun p => p.1 * L.A + p.2 * L.B + L.C) := by
    unfold LineXY.dist_from_signed Vxy.dot LineXY.n_vec
    rcases P with _ | ⟨p, P'⟩
    · simp
    · rcases P' with _ | ⟨q, P''⟩
      · simp
      · simp
  refine ⟨h, ?_⟩
  unfold LineXY.dist_from
  rw [h, List.map_map]
  rfl

/-- C10: Vxy.merge of the empty list returns the empty container (length 0)
    rather than raising, and for every list of containers the merged length
    is the sum of the input lengths. -/
theorem c10_merge_lengths :
    Vxy.merge [] = ([] : Vxy)
    ∧ ∀ vList : List Vxy, (Vxy.merge vList).length = (vList.map List.length).sum := by
  refine ⟨rfl, ?_⟩
  intro vList
  unfold Vxy.merge
  split
  · next hl =>
    obtain rfl := List.length_eq_zero.mp hl
    simp
  · simp [List.length_flatten]

/-- The normalizing constructor establishes the invariant whenever the AB
    vector is nonzero. -/
theorem init_normSq (A B C : ℝ) (h : A ^ 2 + B ^ 2 ≠ 0) :
    (LineXY.init A B C).normSq = 1 := by
  have hpos : 0 < A ^ 2 + B ^ 2 := lt_of_le_of_ne (by positivity) (Ne.symm h)
  have hm : Real.sqrt (A ^ 2 + B ^ 2) ^ 2 = A ^ 2 + B ^ 2 := Real.sq_sqrt hpos.le
  simp only [LineXY.init, LineXY.normSq]
  rw [div_pow, div_pow, div_add_div_same, hm, div_self h]

/-- C1: fit_from_points raises the insufficient-sample ValueError exactly
    when 15 or fewer points are supplied; in particular a 16-point input
    never produces that error, for every random stream, minimizer, fuel and
    threshold. -/
theorem c1_fit_min_points (mini : ℝ × ℝ → Vxy → ℝ × ℝ) (F : ℕ) (P : Vxy)
    (s : ℕ → ℝ) (d : ℝ) :
    fit_from_points mini F P s d = .insufficientPoints ↔ P.length ≤ 15 := by
  unfold fit_from_points
  split
  · next h => exact iff_of_true rfl h
  · next h =>
    refine iff_of_false ?_ h
    split <;> simp

/-- C2 counterexample: from_two_points applied to the coincident pair
    ((1,2), (1,2)) does not raise: the only check in the source is the
    length-1 check, so the zero direction vector reaches the constructor,
    whose zero-norm division produces the degenerate coefficients (NaN in
    numpy, which raises nothing; 0 under the division convention of the
    real-number model). -/
theorem c2_counterexample :
    LineXY.from_two_points [((1 : ℝ), (2 : ℝ))] [((1 : ℝ), (2 : ℝ))] =
      .ok (⟨0, 0, 0⟩ : LineXY) := by
  unfold LineXY.from_two_points LineXY.init
  norm_num

/-- C2 amended: constructing a line from two coincident length-1 points does
    not fail with any error; from_two_points returns a degenerate LineXY
    whose coefficients come from dividing the zero AB vector by its zero
    norm (NaN in the numpy implementation, 0 in the real-number model). -/
theorem c2_from_two_points_coincident_no_error (p : Pt) :
    LineXY.from_two_points [p] [p] = .ok (⟨0, 0, 0⟩ : LineXY) := by
  unfold LineXY.from_two_points LineXY.init
  norm_num

/-- C3 counterexample: a LineXY produced by the from_two_points constructor
    on a coincident pair has A^2 + B^2 = 0, not 1, so the invariant does not
    hold for every constructed line. -/
theorem c3_counterexample :
    LineXY.from_two_points [((0 : ℝ), (0 : ℝ))] [((0 : ℝ), (0 : ℝ))] =
      .ok (⟨0, 0, 0⟩ : LineXY)
    ∧ LineXY.normSq ⟨0, 0, 0⟩ ≠ 1 := by
  constructor
  · unfold LineXY.from_two_points LineXY.init
    norm_num
  · simp [LineXY.normSq]

/-- C3 amended: the stored coefficients satisfy A^2 + B^2 = 1 for every line
    built by direct construction from coefficients with (A, B) not both
    zero, by from_two_points on distinct points, or returned by
    fit_from_points; and flipping (in place or on a copy) preserves the
    invariant. (The unamended claim also covered from_two_points on
    coincident points, where the invariant fails.) -/
theorem c3_normalization_invariant :
    (∀ A B C : ℝ, A ^ 2 + B ^ 2 ≠ 0 → (LineXY.init A B C).normSq = 1)
    ∧ (∀ p1 p2 : Pt, p1 ≠ p2 →
        ∀ L, LineXY.from_two_points [p1] [p2] = .ok L → L.normSq = 1)
    ∧ (∀ mini F P s d L, fit_from_points mini F P s d = .ok L → L.normSq = 1)
    ∧ (∀ L : LineXY, L.normSq = 1 →
        L.flip_in_place.normSq = 1 ∧ L.flip.normSq = 1) := by
  refine ⟨init_normSq, ?_, ?_, ?_⟩
  · intro p1 p2 hne L hL
    simp only [LineXY.from_two_points, List.length_singleton] at hL
    norm_num at hL
    subst hL
    apply init_normSq
    intro h0
    apply hne
    have h1 : p2.2 - p1.2 = 0 := by nlinarith [sq_nonneg (p2.2 - p1.2), sq_nonneg (p2.1 - p1.1)]
    have h2 : p2.1 - p1.1 = 0 := by nlinarith [sq_nonneg (p2.2 - p1.2), sq_nonneg (p2.1 - p1.1)]
    rw [Prod.ext_iff]
    constructor <;> linarith
  · intro mini F P s d L h
    unfold fit_from_points at h
    split at h
    · exact absurd h (by simp)
    · split at h
      · exact absurd h (by simp)
      · exact absurd h (by simp)
      · simp only [FitResult.ok.injEq] at h
        subst h
        apply init_normSq
        rw [Real.sin_sq_add_cos_sq]
        norm_num
  · intro L h
    have hA : L.A ^ 2 + L.B ^ 2 ≠ 0 := by
      have : L.A ^ 2 + L.B ^ 2 = 1 := h
      rw [this]
      norm_num
    constructor
    · simpa [LineXY.flip_in_place, LineXY.normSq, neg_pow] using h
    · have h1 := init_normSq L.A L.B L.C hA
      simpa [LineXY.flip, LineXY.flip_in_place, LineXY.normSq, neg_pow] using h1

/-- C3 witness: the invariant at concrete inputs, through the amended
    theorem: direct construction from (3, 4, 5) and an in-place flip of the
    unit line (1, 0, 0). -/
theorem c3_normalization_invariant_witness :
    (LineXY.init 3 4 5).normSq = 1
    ∧ (LineXY.flip_in_place ⟨1, 0, 0⟩).normSq = 1 :=
  ⟨c3_normalization_invariant.1 3 4 5 (by norm_num),
   (c3_normalization_invariant.2.2.2 ⟨1, 0, 0⟩ (by simp [LineXY.normSq])).1⟩

/-- C5: intersect_with returns none exactly when the source's parallel test
    fires: both A coefficients within 1e-10 of zero, or both B coefficients
    within 1e-10 of zero, or the slopes (extended reals, infinite for a
    near-vertical line) differing by less than 1e-10; otherwise it returns
    the dehomogenized cross product of the two coefficient triples. -/
theorem c5_intersect_parallel (L1 L2 : LineXY) :
    (LineXY.intersect_with L1 L2 = none ↔
      (|L1.A| < 1e-10 ∧ |L2.A| < 1e-10) ∨ (|L1.B| < 1e-10 ∧ |L2.B| < 1e-10)
        ∨ LineXY.absLtE (L1.slope - L2.slope) (1e-10))
    ∧ (¬ ((|L1.A| < 1e-10 ∧ |L2.A| < 1e-10) ∨ (|L1.B| < 1e-10 ∧ |L2.B| < 1e-10)
        ∨ LineXY.absLtE (L1.slope - L2.slope) (1e-10)) →
      LineXY.intersect_with L1 L2 =
        some ((L1.B * L2.C - L1.C * L2.B) / (L1.A * L2.B - L1.B * L2.A),
              (L1.C * L2.A - L1.A * L2.C) / (L1.A * L2.B - L1.B * L2.A))) := by
  constructor
  · unfold LineXY.intersect_with
    split
    · next h => exact iff_of_true rfl h
    · next h => exact iff_of_false (by simp) h
  · intro h
    unfold LineXY.intersect_with
    rw [if_neg h]

/-- C5 witness: the vertical line x = 0 and the horizontal line y = 0 are
    not detected as parallel and intersect at the origin. -/
theorem c5_intersect_parallel_witness :
    LineXY.intersect_with ⟨1, 0, 0⟩ ⟨0, 1, 0⟩ = some ((0 : ℝ), (0 : ℝ)) := by
  have hc : ¬ ((|(⟨1, 0, 0⟩ : LineXY).A| < 1e-10 ∧ |(⟨0, 1, 0⟩ : LineXY).A| < 1e-10)
      ∨ (|(⟨1, 0, 0⟩ : LineXY).B| < 1e-10 ∧ |(⟨0, 1, 0⟩ : LineXY).B| < 1e-10)
      ∨ LineXY.absLtE ((⟨1, 0, 0⟩ : LineXY).slope - (⟨0, 1, 0⟩ : LineXY).slope) (1e-10)) := by
    intro h
    rcases h with ⟨h1, _⟩ | ⟨_, h2⟩ | ⟨_, h2⟩
    · norm_num at h1
    · norm_num at h2
    · have e1 : (⟨1, 0, 0⟩ : LineXY).slope = ⊤ := by norm_num [LineXY.slope]
      have e2 : (⟨0, 1, 0⟩ : LineXY).slope = ((0 : ℝ) : EReal) := by
        norm_num [LineXY.slope]
      rw [e1, e2, EReal.top_sub_coe] at h2
      exact not_top_lt h2
  have h := (c5_intersect_parallel ⟨1, 0, 0⟩ ⟨0, 1, 0⟩).2 hc
  rw [h]
  norm_num

/-- C8: fit_from_points is a function of the supplied point set, seed and
    neighbor distance alone (its generator is rebuilt locally from the seed
    argument and the minimizer is an injected dependency): two runs on equal
    inputs return equal results, coefficient for coefficient. -/
theorem c8_fit_deterministic (rng : ℕ → ℕ → ℝ) (mini : ℝ × ℝ → Vxy → ℝ × ℝ)
    (F : ℕ) (P Q : Vxy) (seed seed' : ℕ) (d e : ℝ)
    (hP : P = Q) (hseed : seed = seed') (hd : d = e) :
    fit_from_points_seeded rng mini F P seed d =
      fit_from_points_seeded rng mini F Q seed' e := by
  rw [hP, hseed, hd]

/-- C8 witness: two identically-seeded runs on the same concrete input agree. -/
theorem c8_fit_deterministic_witness :
    fit_from_points_seeded (fun _ _ => 0) (fun x _ => x) 0
        [((0 : ℝ), (0 : ℝ))] 1 1 =
      fit_from_points_seeded (fun _ _ => 0) (fun x _ => x) 0
        [((0 : ℝ), (0 : ℝ))] 1 1 :=
  c8_fit_deterministic (fun _ _ => 0) (fun x _ => x) 0 _ _ 1 1 1 1 rfl rfl rfl

theorem runTrials_succ_none (P : Vxy) (d : ℝ) (s : ℕ → ℝ) (F rem k best : ℕ)
    (bl : Option BestFit)
    (h : resample P P.length (sampleIdx P.length (s k)) s F (k + 2)
        (sampleIdx P.length (s (k + 1))) = none) :
    runTrials P d s F (rem + 1) k best bl = none := by
  rw [runTrials_succ, h]

theorem runTrials_succ_some (P : Vxy) (d : ℝ) (s : ℕ → ℝ) (F rem k best : ℕ)
    (bl : Option BestFit) (i2 k2 : ℕ)
    (h : resample P P.length (sampleIdx P.length (s k)) s F (k + 2)
        (sampleIdx P.length (s (k + 1))) = some (i2, k2)) :
    runTrials P d s F (rem + 1) k best bl =
      if trialCnt P d (sampleIdx P.length (s k)) i2 > exitThresh P.length then
        some ([⟨sampleIdx P.length (s k), i2, trialCnt P d (sampleIdx P.length (s k)) i2⟩],
          bestUpd (trialCnt P d (sampleIdx P.length (s k)) i2) best,
          blUpd P d (sampleIdx P.length (s k)) i2 best bl)
      else
        match runTrials P d s F rem k2
            (bestUpd (trialCnt P d (sampleIdx P.length (s k)) i2) best)
            (blUpd P d (sampleIdx P.length (s k)) i2 best bl) with
        | none => none
        | some (tr, b3, bl3) =>
          some (⟨sampleIdx P.length (s k), i2, trialCnt P d (sampleIdx P.length (s k)) i2⟩ :: tr,
            b3, bl3) := by
  rw [runTrials_succ, h]

/-- An index drawn as floor(u * n) with u in [0, 1) is in range. -/
theorem sampleIdx_lt (n : ℕ) (u : ℝ) (_h0 : 0 ≤ u) (h1 : u < 1) (hn : 0 < n) :
    sampleIdx n u < n := by
  have hn' : (0 : ℝ) < (n : ℝ) := by exact_mod_cast hn
  have h2 : ⌊u * (n : ℝ)⌋ < (n : ℤ) := by
    apply Int.floor_lt.mpr
    push_cast
    nlinarith
  unfold sampleIdx
  omega

/-- The re-sampling loop only exits on an i2 whose point differs from the
    point at i1: every completed trial uses two distinct points. -/
theorem resample_distinct (P : Vxy) (n i1 : ℕ) (s : ℕ → ℝ) :
    ∀ F k i2 i2' k', resample P n i1 s F k i2 = some (i2', k') →
      P.getD i1 (0, 0) ≠ P.getD i2' (0, 0) := by
  intro F
  induction F with
  | zero =>
    intro k i2 i2' k' h
    rw [resample_zero] at h
    cases h
  | succ F ih =>
    intro k i2 i2' k' h
    rw [resample_succ] at h
    split at h
    · exact ih _ _ _ _ h
    · next hne =>
      obtain ⟨rfl, rfl⟩ : i2 = i2' ∧ k = k' := by simpa using h
      exact hne

/-- Adding fuel never changes a successful re-sampling run. -/
theorem resample_mono (P : Vxy) (n i1 : ℕ) (s : ℕ → ℝ) :
    ∀ F F' k i2 r, F ≤ F' → resample P n i1 s F k i2 = some r →
      resample P n i1 s F' k i2 = some r := by
  intro F
  induction F with
  | zero =>
    intro F' k i2 r _ h
    rw [resample_zero] at h
    cases h
  | succ F ih =>
    intro F' k i2 r hle h
    obtain ⟨G, rfl⟩ : ∃ G, F' = G + 1 := ⟨F' - 1, by omega⟩
    rw [resample_succ] at h ⊢
    split at h
    · next hc =>
      rw [if_pos hc]
      exact ih G _ _ _ (by omega) h
    · next hc =>
      rw [if_neg hc]
      exact h

/-- When every supplied point is identical (and the draws stay in [0, 1) as
    rs.rand() guarantees), the re-sampling while loop never exits: the model
    returns none for every amount of fuel. -/
theorem resample_none_of_const (P : Vxy) (s : ℕ → ℝ) (i1 : ℕ)
    (hne : P ≠ []) (hall : ∀ p ∈ P, p = P.headD (0, 0))
    (hs : ∀ j, 0 ≤ s j ∧ s j < 1) (hi1 : i1 < P.length) :
    ∀ F k i2, i2 < P.length → resample P P.length i1 s F k i2 = none := by
  have hn : 0 < P.length := List.length_pos.mpr hne
  have hget : ∀ i, i < P.length → P.getD i (0, 0) = P.headD (0, 0) := by
    intro i hi
    rw [List.getD_eq_getElem P (0, 0) hi]
    exact hall _ (List.getElem_mem hi)
  intro F
  induction F with
  | zero => intro k i2 _; rfl
  | succ F ih =>
    intro k i2 hi2
    rw [resample_succ, if_pos (by rw [hget i1 hi1, hget i2 hi2])]
    exact ih _ _ (sampleIdx_lt _ _ (hs k).1 (hs k).2 hn)

/-- Adding fuel never changes a successful trial-loop run. -/
theorem runTrials_mono (P : Vxy) (d : ℝ) (s : ℕ → ℝ) :
    ∀ rem F F' k best bl out, F ≤ F' →
      runTrials P d s F rem k best bl = some out →
      runTrials P d s F' rem k best bl = some out := by
  intro rem
  induction rem with
  | zero =>
    intro F F' k best bl out _ h
    rwa [runTrials_zero] at h ⊢
  | succ rem ih =>
    intro F F' k best bl out hle h
    cases hres : resample P P.length (sampleIdx P.length (s k)) s F (k + 2)
        (sampleIdx P.length (s (k + 1))) with
    | none => rw [runTrials_succ_none P d s F rem k best bl hres] at h; cases h
    | some r =>
      obtain ⟨i2, k2⟩ := r
      rw [runTrials_succ_some P d s F rem k best bl i2 k2 hres] at h
      rw [runTrials_succ_some P d s F' rem k best bl i2 k2
        (resample_mono P P.length _ s F F' _ _ _ hle hres)]
      split at h
      · next hcnt =>
        rw [if_pos hcnt]
        exact h
      · next hcnt =>
        rw [if_neg hcnt]
        split at h
        · cases h
        · next tr b3 bl3 heq2 =>
          rw [ih F F' _ _ _ _ hle heq2]
          exact h

/-- When every supplied point is identical (and the draws stay in [0, 1)),
    the trial loop diverges inside its first trial: none for every fuel. -/
theorem runTrials_none_of_const (P : Vxy) (d : ℝ) (s : ℕ → ℝ)
    (hne : P ≠ []) (hall : ∀ p ∈ P, p = P.headD (0, 0))
    (hs : ∀ j, 0 ≤ s j ∧ s j < 1) :
    ∀ F rem k best bl, 1 ≤ rem → runTrials P d s F rem k best bl = none := by
  have hn : 0 < P.length := List.length_pos.mpr hne
  intro F rem k best bl hrem
  obtain ⟨rem', rfl⟩ : ∃ r, rem = r + 1 := ⟨rem - 1, by omega⟩
  exact runTrials_succ_none P d s F rem' k best bl
    (resample_none_of_const P s _ hne hall hs
      (sampleIdx_lt _ _ (hs k).1 (hs k).2 hn) F _ _
      (sampleIdx_lt _ _ (hs (k + 1)).1 (hs (k + 1)).2 hn))

/-- The best_active update is a running maximum. -/
theorem bestUpd_eq_max (cnt best : ℕ) : bestUpd cnt best = max best cnt := by
  unfold bestUpd
  rcases Nat.lt_or_ge best cnt with h | h
  · rw [if_pos h, Nat.max_eq_right h.le]
  · rw [if_neg (by omega), Nat.max_eq_left h]

theorem traceMax_nil : traceMax [] = 0 := rfl

theorem traceMax_cons (t : Trial) (tr : List Trial) :
    traceMax (t :: tr) = max t.cnt (traceMax tr) := rfl

/-- The re-sampling loop exits once the stream offers a draw, within a
    window of m further positions, whose point differs from the point at
    i1 (or the current i2 already differs). -/
theorem resample_term (P : Vxy) (s : ℕ → ℝ) (i1 : ℕ) :
    ∀ m k i2,
      (P.getD i2 (0, 0) ≠ P.getD i1 (0, 0)
        ∨ ∃ j, k ≤ j ∧ j ≤ k + m
            ∧ P.getD (sampleIdx P.length (s j)) (0, 0) ≠ P.getD i1 (0, 0)) →
      ∃ F i2' k', resample P P.length i1 s F k i2 = some (i2', k') := by
  intro m
  induction m with
  | zero =>
    intro k i2 h
    by_cases hc : P.getD i1 (0, 0) = P.getD i2 (0, 0)
    · rcases h with h | ⟨j, hj1, hj2, hj⟩
      · exact absurd hc.symm h
      · obtain rfl : j = k := by omega
        refine ⟨0 + 1 + 1, sampleIdx P.length (s j), j + 1, ?_⟩
        rw [resample_succ, if_pos hc, resample_succ, if_neg (fun hcc => hj hcc.symm)]
    · exact ⟨0 + 1, i2, k, by rw [resample_succ, if_neg hc]⟩
  | succ m ih =>
    intro k i2 h
    by_cases hc : P.getD i1 (0, 0) = P.getD i2 (0, 0)
    · rcases h with h | ⟨j, hj1, hj2, hj⟩
      · exact absurd hc.symm h
      · by_cases hjk : j = k
        · subst hjk
          obtain ⟨F, i2', k', hr⟩ := ih (j + 1) (sampleIdx P.length (s j)) (Or.inl hj)
          exact ⟨F + 1, i2', k', by rw [resample_succ, if_pos hc]; exact hr⟩
        · obtain ⟨F, i2', k', hr⟩ :=
            ih (k + 1) (sampleIdx P.length (s k)) (Or.inr ⟨j, by omega, by omega, hj⟩)
          exact ⟨F + 1, i2', k', by rw [resample_succ, if_pos hc]; exact hr⟩
    · exact ⟨0 + 1, i2, k, by rw [resample_succ, if_neg hc]⟩

/-- Under a fair stream the re-sampling loop always terminates. -/
theorem resample_term_of_fair (P : Vxy) (s : ℕ → ℝ) (hf : FairStream P s)
    (i1 k i2 : ℕ) :
    ∃ F i2' k', resample P P.length i1 s F k i2 = some (i2', k') := by
  obtain ⟨j, j', hj, hj', hne⟩ := hf k
  by_cases h1 : P.getD (sampleIdx P.length (s j)) (0, 0) = P.getD i1 (0, 0)
  · exact resample_term P s i1 (j' - k) k i2
      (Or.inr ⟨j', hj', by omega, fun hx => hne (h1.trans hx.symm)⟩)
  · exact resample_term P s i1 (j - k) k i2 (Or.inr ⟨j, hj, by omega, h1⟩)

/-- Under a fair stream the whole trial loop terminates: some fuel value
    completes every trial. -/
theorem runTrials_exists (P : Vxy) (d : ℝ) (s : ℕ → ℝ) (hf : FairStream P s) :
    ∀ rem k best bl, ∃ F out, runTrials P d s F rem k best bl = some out := by
  intro rem
  induction rem with
  | zero => exact fun k best bl => ⟨0, ([], best, bl), rfl⟩
  | succ rem ih =>
    intro k best bl
    obtain ⟨F1, i2, k2, hres⟩ :=
      resample_term_of_fair P s hf (sampleIdx P.length (s k)) (k + 2)
        (sampleIdx P.length (s (k + 1)))
    by_cases hcnt : trialCnt P d (sampleIdx P.length (s k)) i2 > exitThresh P.length
    · exact ⟨F1, _, by
        rw [runTrials_succ_some P d s F1 rem k best bl i2 k2 hres, if_pos hcnt]⟩
    · obtain ⟨F2, out2, hrun⟩ := ih k2
        (bestUpd (trialCnt P d (sampleIdx P.length (s k)) i2) best)
        (blUpd P d (sampleIdx P.length (s k)) i2 best bl)
      obtain ⟨tr, b3, bl3⟩ := out2
      have hres2 := resample_mono P P.length _ s F1 (max F1 F2) _ _ _
        (le_max_left _ _) hres
      have hrun2 := runTrials_mono P d s rem F2 (max F1 F2) _ _ _ _
        (le_max_right _ _) hrun
      refine ⟨max F1 F2,
        (⟨sampleIdx P.length (s k), i2, trialCnt P d (sampleIdx P.length (s k)) i2⟩ :: tr,
          b3, bl3), ?_⟩
      rw [runTrials_succ_some P d s (max F1 F2) rem k best bl i2 k2 hres2,
        if_neg hcnt, hrun2]

/-- Full invariant of the RANSAC trial loop: the trace holds at most rem
    trials; every executed trial sampled two points with distinct
    coordinates and recorded the inlier count of the candidate line through
    them; the final best count is the running maximum of the trial counts;
    a retained candidate that is not just the inherited initial one is a
    maximum-achieving trial's line together with its saved mask; only the
    final trial may exceed the early-exit threshold; and a loop that stopped
    before exhausting its budget did so because its final trial exceeded the
    threshold. -/
theorem runTrials_spec (P : Vxy) (d : ℝ) (s : ℕ → ℝ) :
    ∀ rem F k b0 bl0 tr b1 bl1,
      runTrials P d s F rem k b0 bl0 = some (tr, b1, bl1) →
      tr.length ≤ rem
      ∧ (∀ t ∈ tr, P.getD t.i1 (0, 0) ≠ P.getD t.i2 (0, 0)
          ∧ t.cnt = trialCnt P d t.i1 t.i2)
      ∧ b1 = max b0 (traceMax tr)
      ∧ (∀ bf, bl1 = some bf → (bl1 = bl0 ∧ b1 = b0)
          ∨ ∃ t ∈ tr, t.cnt = b1
              ∧ bf = ⟨trialLine P t.i1 t.i2, neighborMask P d (trialLine P t.i1 t.i2)⟩)
      ∧ (∀ i, i + 1 < tr.length → ¬ exitThresh P.length < (tr.getD i ⟨0, 0, 0⟩).cnt)
      ∧ (tr.length < rem → exitThresh P.length < (tr.getLastD ⟨0, 0, 0⟩).cnt)
      ∧ (tr = [] → rem = 0) := by
  intro rem
  induction rem with
  | zero =>
    intro F k b0 bl0 tr b1 bl1 h
    rw [runTrials_zero] at h
    obtain ⟨rfl, rfl, rfl⟩ : ([] : List Trial) = tr ∧ b0 = b1 ∧ bl0 = bl1 := by
      simpa using h
    refine ⟨by simp, by simp, by simp [traceMax_nil], ?_, ?_, ?_, fun _ => rfl⟩
    · exact fun bf hbf => Or.inl ⟨rfl, rfl⟩
    · intro i hi
      simp at hi
    · intro h0
      simp at h0
  | succ rem ih =>
    intro F k b0 bl0 tr b1 bl1 h
    cases hres : resample P P.length (sampleIdx P.length (s k)) s F (k + 2)
        (sampleIdx P.length (s (k + 1))) with
    | none =>
      rw [runTrials_succ_none P d s F rem k b0 bl0 hres] at h
      cases h
    | some r =>
      obtain ⟨i2, k2⟩ := r
      rw [runTrials_succ_some P d s F rem k b0 bl0 i2 k2 hres] at h
      have hdist : P.getD (sampleIdx P.length (s k)) (0, 0) ≠ P.getD i2 (0, 0) :=
        resample_distinct P P.length _ s F _ _ _ _ hres
      split at h
      · next hcnt =>
        obtain ⟨rfl, rfl, rfl⟩ :
            ([⟨sampleIdx P.length (s k), i2, trialCnt P d (sampleIdx P.length (s k)) i2⟩]
              : List Trial) = tr
            ∧ bestUpd (trialCnt P d (sampleIdx P.length (s k)) i2) b0 = b1
            ∧ blUpd P d (sampleIdx P.length (s k)) i2 b0 bl0 = bl1 := by
          simpa using h
        refine ⟨by simp, ?_, ?_, ?_, ?_, ?_, by simp⟩
        · intro t ht
          rw [List.mem_singleton] at ht
          subst ht
          exact ⟨hdist, rfl⟩
        · rw [bestUpd_eq_max, traceMax_cons, traceMax_nil, Nat.max_zero]
        · intro bf hbf
          unfold blUpd at hbf
          split at hbf
          · next hgt =>
            refine Or.inr ⟨⟨sampleIdx P.length (s k), i2,
              trialCnt P d (sampleIdx P.length (s k)) i2⟩, by simp, ?_, ?_⟩
            · rw [bestUpd_eq_max, Nat.max_eq_right hgt.le]
            · injection hbf with hx
              exact hx.symm
          · next hng =>
            refine Or.inl ⟨?_, ?_⟩
            · unfold blUpd
              rw [if_neg hng, hbf]
            · rw [bestUpd_eq_max, Nat.max_eq_left (by omega)]
        · intro i hi
          simp only [List.length_singleton] at hi
          omega
        · intro _
          simpa using hcnt
      · next hcnt =>
        split at h
        · cases h
        · next tr' b3 bl3 heq2 =>
          obtain ⟨rfl, rfl, rfl⟩ :
              ((⟨sampleIdx P.length (s k), i2, trialCnt P d (sampleIdx P.length (s k)) i2⟩
                : Trial) :: tr') = tr ∧ b3 = b1 ∧ bl3 = bl1 := by simpa using h
          obtain ⟨ih1, ih2, ih3, ih4, ih5, ih6, ih7⟩ := ih F k2
            (bestUpd (trialCnt P d (sampleIdx P.length (s k)) i2) b0)
            (blUpd P d (sampleIdx P.length (s k)) i2 b0 bl0) tr' b3 bl3 heq2
          refine ⟨?_, ?_, ?_, ?_, ?_, ?_, by simp⟩
          · simp only [List.length_cons]
            omega
          · intro t ht
            rcases List.mem_cons.mp ht with rfl | ht'
            · exact ⟨hdist, rfl⟩
            · exact ih2 t ht'
          · rw [ih3, bestUpd_eq_max, traceMax_cons, Nat.max_assoc]
          · intro bf hbf
            rcases ih4 bf hbf with ⟨e1, e2⟩ | ⟨t, ht, hc', hbf'⟩
            · unfold blUpd at e1
              split at e1
              · next hgt =>
                refine Or.inr ⟨⟨sampleIdx P.length (s k), i2,
                  trialCnt P d (sampleIdx P.length (s k)) i2⟩, by simp, ?_, ?_⟩
                · rw [e2, bestUpd_eq_max, Nat.max_eq_right hgt.le]
                · have hx := e1.symm.trans hbf
                  injection hx with hx'
                  exact hx'.symm
              · next hng =>
                refine Or.inl ⟨e1, ?_⟩
                rw [e2, bestUpd_eq_max, Nat.max_eq_left (by omega)]
            · exact Or.inr ⟨t, List.mem_cons_of_mem _ ht, hc', hbf'⟩
          · intro i hi
            cases i with
            | zero => simpa using hcnt
            | succ i =>
              simp only [List.getD_cons_succ]
              exact ih5 i (by simp only [List.length_cons] at hi; omega)
          · intro hlen
            simp only [List.length_cons] at hlen
            by_cases he : tr' = []
            · have h0 := ih7 he
              subst he
              simp at hlen
              omega
            · have h6 := ih6 (by omega)
              rw [List.getLastD_eq_getLast?] at h6 ⊢
              obtain ⟨x, xs, rfl⟩ := List.exists_cons_of_ne_nil he
              rw [List.getLast?_cons_cons]
              exact h6

/-- Exceeding int(0.99 * n) is exactly exceeding 99 percent of n. -/
theorem exitThresh_lt_iff (n c : ℕ) :
    exitThresh n < c ↔ (0.99 : ℝ) * (n : ℝ) < (c : ℝ) := by
  unfold exitThresh
  have h1 : (0 : ℝ) ≤ (0.99 : ℝ) * (n : ℝ) := by positivity
  have h2 : (0 : ℤ) ≤ ⌊(0.99 : ℝ) * (n : ℝ)⌋ := Int.floor_nonneg.mpr h1
  constructor
  · intro h
    have h3 : ⌊(0.99 : ℝ) * (n : ℝ)⌋ < (c : ℤ) := by omega
    have h4 := Int.floor_lt.mp h3
    exact_mod_cast h4
  · intro h
    have h3 : ⌊(0.99 : ℝ) * (n : ℝ)⌋ < (c : ℤ) := Int.floor_lt.mpr (by exact_mod_cast h)
    omega

/-- dist_from, evaluated pointwise through the broadcast dot product. -/
theorem dist_from_pointwise (L : LineXY) (P : Vxy) :
    L.dist_from P = P.map (fun p => |p.1 * L.A + p.2 * L.B + L.C|) := by
  have h : L.dist_from_signed P = P.map (fun p => p.1 * L.A + p.2 * L.B + L.C) := by
    unfold LineXY.dist_from_signed Vxy.dot LineXY.n_vec
    rcases P with _ | ⟨p, P'⟩
    · simp
    · rcases P' with _ | ⟨q, P''⟩
      · simp
      · simp
  unfold LineXY.dist_from
  rw [h, List.map_map]
  rfl

/-- A map of decidable tests that all hold is a replicate of true. -/
theorem map_decide_true {α : Type} (l : List α) (c : α → Prop) [∀ a, Decidable (c a)]
    (h : ∀ a ∈ l, c a) : (l.map fun a => decide (c a)) = List.replicate l.length true := by
  induction l with
  | nil => rfl
  | cons x xs ih =>
    simp only [List.map_cons, List.length_cons, List.replicate_succ]
    rw [decide_eq_true (h x (List.mem_cons_self x xs)),
      ih (fun a ha => h a (List.mem_cons_of_mem x ha))]

/-- C4: the RANSAC stage of fit_from_points: at most 1000 sampling trials
    run; every executed trial samples two points with distinct coordinates
    and records as its count the number of points within the
    neighbor-distance threshold of the candidate two-point line; the final
    best count is the maximum count seen so far; the retained candidate is
    the line (with its saved inlier mask) of a count-maximizing trial; no
    trial before the last exceeds 99 percent of the total number of points;
    and whenever fewer than 1000 trials ran, the loop exited early because
    the final trial's count exceeds 99 percent of the total. -/
theorem c4_ransac_loop (P : Vxy) (d : ℝ) (s : ℕ → ℝ) (F : ℕ)
    (tr : List Trial) (best : ℕ) (bl : Option BestFit)
    (h : runTrials P d s F 1000 0 0 none = some (tr, best, bl)) :
    tr.length ≤ 1000
    ∧ (∀ t ∈ tr, P.getD t.i1 (0, 0) ≠ P.getD t.i2 (0, 0)
        ∧ t.cnt = inlierCount P d (lineThrough (P.getD t.i1 (0, 0)) (P.getD t.i2 (0, 0))))
    ∧ best = traceMax tr
    ∧ (∀ bf, bl = some bf → ∃ t ∈ tr, t.cnt = best
        ∧ bf.line = lineThrough (P.getD t.i1 (0, 0)) (P.getD t.i2 (0, 0))
        ∧ bf.mask = neighborMask P d (lineThrough (P.getD t.i1 (0, 0)) (P.getD t.i2 (0, 0))))
    ∧ (∀ i, i + 1 < tr.length →
        ¬ (0.99 : ℝ) * (P.length : ℝ) < ((tr.getD i ⟨0, 0, 0⟩).cnt : ℝ))
    ∧ (tr.length < 1000 →
        (0.99 : ℝ) * (P.length : ℝ) < ((tr.getLastD ⟨0, 0, 0⟩).cnt : ℝ)) := by
  obtain ⟨h1, h2, h3, h4, h5, h6, _⟩ := runTrials_spec P d s 1000 F 0 0 none tr best bl h
  refine ⟨h1, ?_, ?_, ?_, ?_, ?_⟩
  · intro t ht
    exact ⟨(h2 t ht).1, (h2 t ht).2⟩
  · rw [h3, Nat.max_eq_right (Nat.zero_le _)]
  · intro bf hbf
    rcases h4 bf hbf with ⟨e1, _⟩ | ⟨t, ht, hc, hbf'⟩
    · rw [hbf] at e1
      simp at e1
    · exact ⟨t, ht, hc, by rw [hbf']; rfl, by rw [hbf']; rfl⟩
  · intro i hi
    rw [← exitThresh_lt_iff]
    exact h5 i hi
  · intro hlen
    rw [← exitThresh_lt_iff]
    exact h6 hlen

theorem P16_length : P16.length = 16 := rfl

theorem sampleIdx16_zero : sampleIdx 16 (s16 0) = 0 := by
  have e : s16 0 = 0 := rfl
  rw [e]
  unfold sampleIdx
  norm_num

theorem sampleIdx16_one : sampleIdx 16 (s16 1) = 1 := by
  have e : s16 1 = 1 / 16 := rfl
  rw [e]
  unfold sampleIdx
  have e2 : (1 / 16 : ℝ) * ((16 : ℕ) : ℝ) = 1 := by norm_num
  rw [e2]
  norm_num

theorem P16_zero_ne_one : P16.getD 0 (0, 0) ≠ P16.getD 1 (0, 0) := by
  have e0 : P16.getD 0 (0, 0) = ((0 : ℝ), (0 : ℝ)) := rfl
  have e1 : P16.getD 1 (0, 0) = ((1 : ℝ), (0 : ℝ)) := rfl
  rw [e0, e1]
  intro hx
  rw [Prod.ext_iff] at hx
  norm_num at hx

theorem resample16 : resample P16 P16.length (sampleIdx P16.length (s16 0)) s16 1 (0 + 2)
    (sampleIdx P16.length (s16 (0 + 1))) = some (1, 2) := by
  rw [P16_length, sampleIdx16_zero]
  norm_num
  rw [sampleIdx16_one, resample_succ, if_neg P16_zero_ne_one]

theorem trialLine16 : trialLine P16 0 1 = ⟨0, -1, 0⟩ := by
  have e : trialLine P16 0 1 = lineThrough ((0 : ℝ), (0 : ℝ)) ((1 : ℝ), (0 : ℝ)) := rfl
  rw [e]
  unfold lineThrough LineXY.init
  norm_num [Real.sqrt_one]

theorem neighborMask16 : neighborMask P16 1 ⟨0, -1, 0⟩ = List.replicate 16 true := by
  unfold neighborMask
  rw [dist_from_pointwise, List.map_map]
  have hall : ∀ p ∈ P16, |p.1 * (0 : ℝ) + p.2 * (-1) + 0| < 1 := by
    intro p hp
    simp only [P16, List.mem_cons, List.not_mem_nil, or_false] at hp
    rcases hp with rfl | rfl | rfl | rfl | rfl | rfl | rfl | rfl | rfl | rfl | rfl | rfl |
      rfl | rfl | rfl | rfl <;> norm_num
  exact map_decide_true P16 (fun p => |p.1 * (0 : ℝ) + p.2 * (-1) + 0| < 1) hall

theorem trialCnt16 : trialCnt P16 1 0 1 = 16 := by
  unfold trialCnt inlierCount
  rw [trialLine16, neighborMask16]
  simp

theorem exitThresh16 : exitThresh 16 = 15 := by
  unfold exitThresh
  have e : ⌊(0.99 : ℝ) * ((16 : ℕ) : ℝ)⌋ = 15 := by
    rw [Int.floor_eq_iff]
    constructor <;> norm_num
  rw [e]
  rfl

theorem runTrials16 : runTrials P16 1 s16 1 1000 0 0 none =
    some ([⟨0, 1, 16⟩], 16, some ⟨⟨0, -1, 0⟩, List.replicate 16 true⟩) := by
  rw [runTrials_succ_some P16 1 s16 1 999 0 0 none 1 2 resample16]
  rw [P16_length, sampleIdx16_zero, trialCnt16]
  rw [if_pos (by rw [exitThresh16]; norm_num)]
  have hbu : bestUpd 16 0 = 16 := by unfold bestUpd; norm_num
  have hblu : blUpd P16 1 0 1 0 none = some ⟨⟨0, -1, 0⟩, List.replicate 16 true⟩ := by
    unfold blUpd
    rw [trialCnt16, if_pos (by norm_num : (16 : ℕ) > 0), trialLine16, neighborMask16]
  rw [hbu, hblu]

/-- C4 witness: on sixteen collinear points with draw stream s16, the first
    trial samples the distinct points at indices 0 and 1, counts 16 inliers,
    exceeds the 99 percent threshold and exits after a single trial of the
    1000 allowed, retaining the fitted candidate with best count 16. -/
theorem c4_ransac_loop_witness :
    runTrials P16 1 s16 1 1000 0 0 none =
      some ([⟨0, 1, 16⟩], 16, some ⟨⟨0, -1, 0⟩, List.replicate 16 true⟩)
    ∧ ([(⟨0, 1, 16⟩ : Trial)] : List Trial).length ≤ 1000
    ∧ P16.getD 0 (0, 0) ≠ P16.getD 1 (0, 0)
    ∧ (16 : ℕ) = traceMax [⟨0, 1, 16⟩]
    ∧ (0.99 : ℝ) * (P16.length : ℝ) <
        ((([⟨0, 1, 16⟩] : List Trial).getLastD ⟨0, 0, 0⟩).cnt : ℝ) := by
  obtain ⟨h1, h2, h3, _, _, h6⟩ := c4_ransac_loop P16 1 s16 1 _ _ _ runTrials16
  exact ⟨runTrials16, h1, (h2 ⟨0, 1, 16⟩ (List.mem_singleton_self _)).1, h3,
    h6 (by norm_num)⟩

/-- An index drawn as a/n (for a < n) samples exactly position a. -/
theorem sampleIdx_div (n a : ℕ) (ha : a < n) :
    sampleIdx n ((a : ℝ) / (n : ℝ)) = a := by
  have hn : (0 : ℝ) < (n : ℝ) := by exact_mod_cast lt_of_le_of_lt (Nat.zero_le a) ha
  unfold sampleIdx
  have e : ((a : ℝ) / (n : ℝ)) * (n : ℝ) = ((a : ℕ) : ℝ) := by field_simp
  rw [e]
  have e2 : ⌊((a : ℕ) : ℝ)⌋ = (a : ℤ) := Int.floor_natCast a
  rw [e2]
  simp

/-- C9: termination of the RANSAC stage of fit_from_points. First part:
    when every supplied point is identical (with at least 16 points and
    draws in [0, 1), as rs.rand() guarantees) the inner re-sampling loop
    never exits - fit_from_points diverges for every fuel bound, so the
    hypothesis of two distinct points is necessary. Second part: under a
    fair draw stream (one that keeps sampling two differing points - the
    almost-sure behaviour of the uniform draws whenever two distinct points
    exist) some fuel completes every trial and fit_from_points does not
    diverge. Third part: a fair in-range stream is realizable from any
    point set containing two points with distinct coordinates, so the
    hypothesis of the claim and the fairness hypothesis of the second part
    match. -/
theorem c9_fit_termination :
    (∀ mini F (P : Vxy) s d, 16 ≤ P.length → (∀ j, 0 ≤ s j ∧ s j < 1) →
      (∀ p ∈ P, p = P.headD (0, 0)) → fit_from_points mini F P s d = .diverged)
    ∧ (∀ mini (P : Vxy) s d, FairStream P s →
      ∃ F, fit_from_points mini F P s d ≠ .diverged)
    ∧ (∀ P : Vxy, (∃ p ∈ P, ∃ q ∈ P, p ≠ q) →
      ∃ s, (∀ j, 0 ≤ s j ∧ s j < 1) ∧ FairStream P s) := by
  refine ⟨?_, ?_, ?_⟩
  · intro mini F P s d hlen hs hall
    have hne : P ≠ [] := by
      intro hx
      rw [hx] at hlen
      simp at hlen
    unfold fit_from_points
    rw [if_neg (by omega),
      runTrials_none_of_const P d s hne hall hs F 1000 0 0 none (by norm_num)]
  · intro mini P s d hf
    by_cases hlen : P.length ≤ 15
    · refine ⟨0, ?_⟩
      unfold fit_from_points
      rw [if_pos hlen]
      simp
    · obtain ⟨F, out, hout⟩ := runTrials_exists P d s hf 1000 0 0 none
      obtain ⟨tr, b, bl⟩ := out
      refine ⟨F, ?_⟩
      unfold fit_from_points
      rw [if_neg hlen, hout]
      cases bl <;> simp
  · rintro P ⟨p, hp, q, hq, hpq⟩
    obtain ⟨a, ha, hpa⟩ := List.mem_iff_getElem.mp hp
    obtain ⟨b, hb, hqb⟩ := List.mem_iff_getElem.mp hq
    have hn : 0 < P.length := by omega
    refine ⟨fun j => if j % 2 = 0 then (a : ℝ) / (P.length : ℝ)
      else (b : ℝ) / (P.length : ℝ), ?_, ?_⟩
    · intro j
      have hnr : (0 : ℝ) < (P.length : ℝ) := by exact_mod_cast hn
      dsimp only
      constructor
      · split <;> positivity
      · split
        · rw [div_lt_one hnr]
          exact_mod_cast ha
        · rw [div_lt_one hnr]
          exact_mod_cast hb
    · intro k
      refine ⟨2 * k, 2 * k + 1, by omega, by omega, ?_⟩
      have e1 : (2 * k) % 2 = 0 := by omega
      have e2 : (2 * k + 1) % 2 = 1 := by omega
      dsimp only
      rw [e1, e2, if_pos rfl, if_neg one_ne_zero]
      rw [sampleIdx_div P.length a ha, sampleIdx_div P.length b hb]
      rw [List.getD_eq_getElem P (0, 0) ha, List.getD_eq_getElem P (0, 0) hb]
      rw [hpa, hqb]
      exact hpq

/-- C9 witness: sixteen copies of the same point make fit_from_points
    diverge in the inner re-sampling loop. -/
theorem c9_fit_termination_witness :
    fit_from_points (fun x _ => x) 0 (List.replicate 16 ((2 : ℝ), (3 : ℝ)))
      (fun _ => 0) 1 = .diverged := by
  apply c9_fit_termination.1
  · simp
  · intro j
    norm_num
  · intro p hp
    have e := List.eq_of_mem_replicate hp
    rw [e]
    rfl
